import Mathlib

/-!
Verification development for the `certs` library: a certificate lifecycle
coordinator over a Redis-like key/value store (source files
`lib/certs.js`, `lib/tools.js`, `lib/acme-challenge.js`, `lib/settings.js`).

The JavaScript sources are shallowly embedded as executable Lean
definitions.  JavaScript strings are modelled as `String` / `List Char`,
millisecond timestamps as `Int`, and the store as explicit state records.
External collaborators (the Redis client, the `punycode` and `msgpack5`
libraries, the DNS resolver, the ACME client, Unicode string primitives)
are modelled from their documented contracts where the embedded code calls
into them; each such model carries a doc comment saying so.
-/

/- ===================== JS string primitives ===================== -/

/-- Model of `String.prototype.toLowerCase` (external runtime primitive),
restricted to its ASCII action: code points 65–90 are shifted to 97–122,
everything else is untouched. -/
def jsToLower (c : Char) : Char :=
  if 65 ≤ c.toNat ∧ c.toNat ≤ 90 then Char.ofNat (c.toNat + 32) else c

/-- `toLowerCase` applied to a whole string (as a list of code points). -/
def lowerStr (s : List Char) : List Char := s.map jsToLower

/-- Model of the whitespace class removed by `String.prototype.trim`:
space, tab, line feed, vertical tab, form feed, carriage return, NBSP and
the BOM. -/
def jsIsSpace (c : Char) : Bool :=
  decide (c.toNat = 32 ∨ c.toNat = 9 ∨ c.toNat = 10 ∨ c.toNat = 11 ∨
    c.toNat = 12 ∨ c.toNat = 13 ∨ c.toNat = 160 ∨ c.toNat = 65279)

/-- Model of `String.prototype.trim`: drop whitespace from both ends. -/
def jsTrim (s : List Char) : List Char :=
  ((s.dropWhile jsIsSpace).reverse.dropWhile jsIsSpace).reverse

/- ===================== punycode (external library model) ===================== -/

/-- Model of `basicToDigit` from the `punycode` package: maps a code point
to its base-36 digit value, or 36 (= `base`, invalid) otherwise. -/
def basicToDigit (cp : Nat) : Nat :=
  if 0x30 ≤ cp ∧ cp < 0x3a then cp - 22
  else if 0x41 ≤ cp ∧ cp < 0x5b then cp - 0x41
  else if 0x61 ≤ cp ∧ cp < 0x7b then cp - 0x61
  else 36

/-- The `while (delta > 455) { delta /= 35; k += 36 }` loop of punycode's
`adapt`.  Fuel-bounded so that it evaluates in the kernel; 64 iterations
are far more than the loop can ever take (delta < 2^31 and each round
divides it by 35). -/
def punyAdaptLoop : Nat → Nat → Nat → Nat × Nat
  | 0, delta, k => (delta, k)
  | fuel + 1, delta, k =>
    if delta > 455 then punyAdaptLoop fuel (delta / 35) (k + 36) else (delta, k)

/-- Model of punycode's bias adaptation function `adapt`. -/
def punyAdapt (delta numPoints : Nat) (firstTime : Bool) : Nat :=
  let d0 := if firstTime then delta / 700 else delta / 2
  let d1 := d0 + d0 / numPoints
  let dk := punyAdaptLoop 64 d1 0
  dk.2 + 36 * dk.1 / (dk.1 + 38)

/-- `maxInt` of the punycode package (2^31 - 1), used in overflow checks. -/
def punyMaxInt : Nat := 2147483647

/-- The inner digit-consuming loop of punycode `decode`: reads base-36
digits until one falls below the threshold `t`; returns the updated index
accumulator `i` and the unread rest, or `none` on `invalid-input` or
overflow. -/
def punyDigits : Nat → List Nat → Nat → Nat → Nat → Nat → Option (Nat × List Nat)
  | 0, _, _, _, _, _ => none
  | _ + 1, [], _, _, _, _ => none
  | fuel + 1, cp :: rest, i, w, k, bias =>
    let digit := basicToDigit cp
    if digit ≥ 36 then none
    else if digit > (punyMaxInt - i) / w then none
    else
      let i1 := i + digit * w
      let t := if k ≤ bias then 1 else if k ≥ bias + 26 then 26 else k - bias
      if digit < t then some (i1, rest)
      else if w > punyMaxInt / (36 - t) then none
      else punyDigits fuel rest i1 (w * (36 - t)) (k + 36) bias

/-- Insert `x` at position `i` of `l` — the `output.splice(i, 0, n)` call
of punycode `decode`. -/
def insertAt (l : List Nat) (i : Nat) (x : Nat) : List Nat :=
  l.take i ++ x :: l.drop i

/-- The outer loop of punycode `decode`: while input remains, consume one
delta, update `n`/`bias`, and insert the new code point. -/
def punyDecodeLoop : Nat → List Nat → List Nat → Nat → Nat → Nat → Option (List Nat)
  | _, [], output, _, _, _ => some output
  | 0, _ :: _, _, _, _, _ => none
  | fuel + 1, inp@(_ :: _), output, i, n, bias =>
    match punyDigits (inp.length + 1) inp i 1 36 bias with
    | none => none
    | some (i1, rest) =>
      let out := output.length + 1
      let bias1 := punyAdapt (i1 - i) out (i == 0)
      if i1 / out > punyMaxInt - n then none
      else
        let n1 := n + i1 / out
        let i2 := i1 % out
        punyDecodeLoop fuel rest (insertAt output i2 n1) (i2 + 1) n1 bias1

/-- Index of the last occurrence of `x` in `l` (punycode uses
`input.lastIndexOf('-')`). -/
def lastIdxOf : List Nat → Nat → Option Nat
  | [], _ => none
  | a :: as, x =>
    match lastIdxOf as x with
    | some i => some (i + 1)
    | none => if a = x then some 0 else none

/-- Model of punycode `decode` on a label given as a list of code points:
copy the basic part before the last delimiter, then run the decode loop.
`none` models a thrown `RangeError`. -/
def punyDecode (input : List Nat) : Option (List Nat) :=
  let basic := (lastIdxOf input 45).getD 0
  let head := input.take basic
  if head.any (fun cp => cp ≥ 0x80) then none
  else
    let start := if basic > 0 then basic + 1 else 0
    let rest := input.drop start
    punyDecodeLoop (rest.length + 1) rest head 0 128 72

/-- The label separators recognised by punycode's `mapDomain`
(`.`, U+3002, U+FF0E, U+FF61). -/
def isSep (c : Char) : Bool :=
  c == '.' || c.toNat == 0x3002 || c.toNat == 0xFF0E || c.toNat == 0xFF61

/-- Split a list of characters at every position where `p` holds,
keeping empty groups (the behaviour of `String.prototype.split`). -/
def splitOnP (p : Char → Bool) : List Char → List (List Char)
  | [] => [[]]
  | c :: cs =>
    if p c then [] :: splitOnP p cs
    else
      match splitOnP p cs with
      | g :: gs => (c :: g) :: gs
      | [] => [[c]]

/-- Join character lists with `.` — the `join('.')` of `mapDomain`. -/
def joinDots (ls : List (List Char)) : List Char :=
  match ls with
  | [] => []
  | l :: rest => rest.foldl (fun acc g => acc ++ '.' :: g) l

/-- Code points representable in a JS string produced by
`String.fromCodePoint` and in a Lean `Char` (surrogates excluded). -/
def validCp (n : Nat) : Bool :=
  n < 0xd800 || (0xe000 ≤ n && n < 0x110000)

/-- Does the (already lowercased) label start with `xn--`?  This is the
`regexPunycode` test (a leading-`xn--` regular expression) of the
punycode package. -/
def startsXn (l : List Char) : Bool :=
  l.take 4 == ['x', 'n', '-', '-']

/-- Per-label action of punycode `toUnicode`: labels with a leading
`xn--` are decoded (`decode(label.slice(4).toLowerCase())`), others pass
through; `none` models a thrown error. -/
def mapLabel (l : List Char) : Option (List Char) :=
  if startsXn l then
    match punyDecode (((l.drop 4).map jsToLower).map Char.toNat) with
    | none => none
    | some cps =>
      if cps.all validCp then some (cps.map Char.ofNat) else none
  else some l

/-- Decode every label, failing if any label fails. -/
def mapLabels : List (List Char) → Option (List (List Char))
  | [] => some []
  | l :: ls =>
    match mapLabel l, mapLabels ls with
    | some l1, some ls1 => some (l1 :: ls1)
    | _, _ => none

/-- Model of punycode `toUnicode` (via `mapDomain`): an optional
`local@` part is kept verbatim (extra `@`-parts are dropped, as in the
library), the domain part is split at the separators, each `xn--` label
is decoded, and the labels are rejoined with `.`. -/
def punyToUnicode (s : List Char) : Option (List Char) :=
  let atParts := splitOnP (fun c => c == '@') s
  let pair : List Char × List Char :=
    match atParts with
    | p0 :: p1 :: _ :: _ => (p0 ++ ['@'], p1)
    | [p0, p1] => (p0 ++ ['@'], p1)
    | _ => ([], s)
  match mapLabels (splitOnP isSep pair.2) with
  | none => none
  | some ls => some (pair.1 ++ joinDots ls)

/-- Model of `String.prototype.normalize('NFC')` (external Unicode
primitive).  NFC is the identity on ASCII strings, which is the fragment
every concrete input in this development exercises; the theorems that
quantify over all inputs do not depend on the value of this function. -/
def nfcNormalize (s : List Char) : List Char := s

/-- Embedding of `normalizeDomain` from `lib/tools.js`: lowercase and
trim; if the result starts with `xn--`, punycode-decode it, NFC-normalize,
lowercase and trim again; a decode error leaves the lowercased input
unchanged (the `try { ... } catch (E) { /* ignore */ }`). -/
def normalizeDomain (domain : List Char) : List Char :=
  let d := jsTrim (lowerStr domain)
  if startsXn d then
    match punyToUnicode d with
    | some u => jsTrim (lowerStr (nfcNormalize u))
    | none => d
  else d

/-- `normalizeDomain` on Lean `String`s. -/
def normalizeDomainStr (s : String) : String :=
  String.mk (normalizeDomain s.data)

/- ===================== Lemmas about the string primitives ===================== -/

theorem jsToLower_toNat (c : Char) :
    (jsToLower c).toNat =
      if 65 ≤ c.toNat ∧ c.toNat ≤ 90 then c.toNat + 32 else c.toNat := by
  unfold jsToLower
  split
  · rename_i h
    have hv : (c.toNat + 32).isValidChar := Or.inl (by omega)
    unfold Char.ofNat
    rw [dif_pos hv]
    rfl
  · rfl

theorem jsToLower_fix (c : Char) (h : ¬(65 ≤ c.toNat ∧ c.toNat ≤ 90)) :
    jsToLower c = c := by
  unfold jsToLower
  rw [if_neg h]

theorem jsToLower_idem (c : Char) : jsToLower (jsToLower c) = jsToLower c := by
  by_cases h : 65 ≤ c.toNat ∧ c.toNat ≤ 90
  · apply jsToLower_fix
    have ht := jsToLower_toNat c
    rw [if_pos h] at ht
    omega
  · rw [jsToLower_fix c h]
    exact jsToLower_fix c h

theorem jsIsSpace_jsToLower (c : Char) : jsIsSpace (jsToLower c) = jsIsSpace c := by
  unfold jsIsSpace
  have ht := jsToLower_toNat c
  by_cases h : 65 ≤ c.toNat ∧ c.toNat ≤ 90
  · rw [if_pos h] at ht
    rw [ht, decide_eq_decide]
    constructor <;> intro hx <;> omega
  · rw [if_neg h] at ht
    rw [ht]

theorem dropWhile_eq_self_of_head {α : Type} (p : α → Bool) :
    ∀ l : List α, (∀ a, l.head? = some a → p a = false) → l.dropWhile p = l
  | [], _ => rfl
  | a :: as, h => by
    have ha : p a = false := h a rfl
    simp [List.dropWhile, ha]

theorem dropWhile_idem {α : Type} (p : α → Bool) (l : List α) :
    (l.dropWhile p).dropWhile p = l.dropWhile p := by
  apply dropWhile_eq_self_of_head
  intro a ha
  have hh := List.head?_dropWhile_not p l
  rw [ha] at hh
  exact hh

theorem jsTrim_head (s : List Char) :
    ∀ a, (jsTrim s).head? = some a → jsIsSpace a = false := by
  intro a ha
  unfold jsTrim at ha
  obtain ⟨pre, hpre⟩ := (List.dropWhile_suffix (l := (s.dropWhile jsIsSpace).reverse) jsIsSpace)
  set t := s.dropWhile jsIsSpace with ht
  set u := t.reverse.dropWhile jsIsSpace with hu
  have htu : t = u.reverse ++ pre.reverse := by
    have : t.reverse.reverse = (pre ++ u).reverse := by rw [hpre]
    rw [List.reverse_reverse, List.reverse_append] at this
    exact this
  have hhead : t.head? = some a := by
    rw [htu, List.head?_append]
    rw [ha]
    rfl
  have hh := List.head?_dropWhile_not jsIsSpace s
  rw [← ht] at hh
  rw [hhead] at hh
  exact hh

theorem jsTrim_dropWhile (s : List Char) :
    (jsTrim s).dropWhile jsIsSpace = jsTrim s :=
  dropWhile_eq_self_of_head _ _ (jsTrim_head s)

theorem jsTrim_idem (s : List Char) : jsTrim (jsTrim s) = jsTrim s := by
  show (((jsTrim s).dropWhile jsIsSpace).reverse.dropWhile jsIsSpace).reverse = jsTrim s
  rw [jsTrim_dropWhile]
  show ((((s.dropWhile jsIsSpace).reverse.dropWhile jsIsSpace).reverse).reverse.dropWhile
    jsIsSpace).reverse = jsTrim s
  rw [List.reverse_reverse, dropWhile_idem]
  rfl

theorem map_dropWhile_lower (l : List Char) :
    (l.dropWhile jsIsSpace).map jsToLower = (l.map jsToLower).dropWhile jsIsSpace := by
  rw [List.dropWhile_map]
  have hc : (jsIsSpace ∘ jsToLower) = jsIsSpace := funext jsIsSpace_jsToLower
  rw [hc]

theorem lowerStr_jsTrim (s : List Char) : lowerStr (jsTrim s) = jsTrim (lowerStr s) := by
  unfold lowerStr jsTrim
  rw [List.map_reverse, map_dropWhile_lower, List.map_reverse, map_dropWhile_lower]

theorem lowerStr_idem (s : List Char) : lowerStr (lowerStr s) = lowerStr s := by
  unfold lowerStr
  rw [List.map_map]
  have hc : (jsToLower ∘ jsToLower) = jsToLower := funext jsToLower_idem
  rw [hc]

theorem trimLower_fix (z : List Char) :
    jsTrim (lowerStr (jsTrim (lowerStr z))) = jsTrim (lowerStr z) := by
  rw [lowerStr_jsTrim, lowerStr_idem, jsTrim_idem]

theorem normalizeDomain_shape (d : List Char) :
    ∃ z, normalizeDomain d = jsTrim (lowerStr z) := by
  unfold normalizeDomain
  by_cases h : startsXn (jsTrim (lowerStr d)) = true
  · rw [if_pos h]
    cases hu : punyToUnicode (jsTrim (lowerStr d)) with
    | none => exact ⟨d, rfl⟩
    | some u => exact ⟨nfcNormalize u, rfl⟩
  · rw [if_neg h]
    exact ⟨d, rfl⟩

theorem normalizeDomain_lowerFix (d : List Char) :
    lowerStr (normalizeDomain d) = normalizeDomain d := by
  obtain ⟨z, hz⟩ := normalizeDomain_shape d
  rw [hz, lowerStr_jsTrim, lowerStr_idem]

theorem normalizeDomain_trimFix (d : List Char) :
    jsTrim (normalizeDomain d) = normalizeDomain d := by
  obtain ⟨z, hz⟩ := normalizeDomain_shape d
  rw [hz, jsTrim_idem]

theorem normalizeDomain_trimLowerFix (d : List Char) :
    jsTrim (lowerStr (normalizeDomain d)) = normalizeDomain d := by
  rw [normalizeDomain_lowerFix, normalizeDomain_trimFix]

theorem normalizeDomain_of_fixed (r : List Char) (hfix : jsTrim (lowerStr r) = r)
    (hx : startsXn r = false) : normalizeDomain r = r := by
  simp only [normalizeDomain, hfix, hx, Bool.false_eq_true, if_false]

/-- C10 (amended).  `normalizeDomain` always returns a lowercase, trimmed
string, and it is idempotent on every input whose normalized form does not
itself start with `xn--` (in particular on every input where punycode
decoding is not re-entered).  The un-amended universal idempotence claim
is refuted by `tools_C10_counterexample`. -/
theorem tools_C10_normalizeDomain_lower_trim_idem (s : String) :
    lowerStr (normalizeDomainStr s).data = (normalizeDomainStr s).data ∧
    jsTrim (normalizeDomainStr s).data = (normalizeDomainStr s).data ∧
    (startsXn (normalizeDomainStr s).data = false →
      normalizeDomainStr (normalizeDomainStr s) = normalizeDomainStr s) := by
  refine ⟨normalizeDomain_lowerFix s.data, normalizeDomain_trimFix s.data, ?_⟩
  intro h
  show String.mk (normalizeDomain (normalizeDomain s.data)) = String.mk (normalizeDomain s.data)
  rw [normalizeDomain_of_fixed (normalizeDomain s.data) (normalizeDomain_trimLowerFix s.data) h]

/-- Witness for C10: a concrete non-punycode input on which the amended
idempotence theorem applies. -/
theorem tools_C10_witness :
    startsXn (normalizeDomainStr " EXample.Com ").data = false ∧
    normalizeDomainStr (normalizeDomainStr " EXample.Com ") =
      normalizeDomainStr " EXample.Com " :=
  ⟨by decide, (tools_C10_normalizeDomain_lower_trim_idem " EXample.Com ").2.2 (by decide)⟩

/-- Counterexample for C10 as stated: `normalizeDomain` is not idempotent.
`"xn--xn---"` punycode-decodes to `"xn--"`, which a second application
decodes again, to the empty string: the decoded form IS decoded again. -/
theorem tools_C10_counterexample :
    normalizeDomainStr "xn--xn---" = "xn--" ∧
    normalizeDomainStr "xn--" = "" ∧
    normalizeDomainStr (normalizeDomainStr "xn--xn---") ≠ normalizeDomainStr "xn--xn---" := by
  refine ⟨by decide, by decide, by decide⟩

/- ===================== msgpack codec (external library model) ===================== -/

/-- The values representable by the self-describing binary codec used by
the settings and challenge stores (`msgpack5`): nulls, booleans, integers,
UTF-8 strings, byte strings, timestamps, arrays and maps (spec §6.5).
Modelled from the spec: the `msgpack5` dependency is external to the
repository. -/
inductive Value where
  | vnull : Value
  | vbool : Bool → Value
  | vint : Int → Value
  | vstr : String → Value
  | vbin : List Nat → Value
  | vtime : Int → Value
  | varr : List Value → Value
  | vmap : List (Value × Value) → Value

/-- Variable-length natural-number encoding (continuation-bit base 128),
fuel-recursive so it evaluates in the kernel. -/
def natEncF : Nat → Nat → List Nat
  | 0, _ => []
  | fuel + 1, n => if n < 128 then [n] else (128 + n % 128) :: natEncF fuel (n / 128)

/-- Encode a natural number. -/
def natEnc (n : Nat) : List Nat := natEncF (n + 1) n

/-- Decode a variable-length natural number. -/
def natDec : List Nat → Option (Nat × List Nat)
  | [] => none
  | b :: rest =>
    if b < 128 then some (b, rest)
    else
      match natDec rest with
      | some (m, r) => some (b - 128 + 128 * m, r)
      | none => none

/-- Encode an integer: a sign byte followed by a magnitude. -/
def intEnc : Int → List Nat
  | Int.ofNat n => 0 :: natEnc n
  | Int.negSucc n => 1 :: natEnc n

/-- Decode an integer. -/
def intDec : List Nat → Option (Int × List Nat)
  | 0 :: rest => (natDec rest).map (fun p => (Int.ofNat p.1, p.2))
  | 1 :: rest => (natDec rest).map (fun p => (Int.negSucc p.1, p.2))
  | _ => none

/-- Encode the code points of a string. -/
def charsEnc (l : List Char) : List Nat := (l.map (fun c => natEnc c.toNat)).flatten

/-- Decode `n` code points. -/
def charsDec : Nat → List Nat → Option (List Char × List Nat)
  | 0, bs => some ([], bs)
  | n + 1, bs =>
    match natDec bs with
    | some (m, r1) =>
      match charsDec n r1 with
      | some (cs, r2) => some (Char.ofNat m :: cs, r2)
      | none => none
    | none => none

/-- Encode raw bytes. -/
def binEnc (l : List Nat) : List Nat := (l.map natEnc).flatten

/-- Decode `n` raw bytes. -/
def binsDec : Nat → List Nat → Option (List Nat × List Nat)
  | 0, bs => some ([], bs)
  | n + 1, bs =>
    match natDec bs with
    | some (m, r1) =>
      match binsDec n r1 with
      | some (ms, r2) => some (m :: ms, r2)
      | none => none
    | none => none

mutual

/-- Structural size of a value: an upper bound on the recursion depth the
decoder needs. -/
def szV : Value → Nat
  | .vnull => 1
  | .vbool _ => 1
  | .vint _ => 1
  | .vstr _ => 1
  | .vbin _ => 1
  | .vtime _ => 1
  | .varr l => 1 + szVs l
  | .vmap ps => 1 + szPs ps

def szVs : List Value → Nat
  | [] => 0
  | v :: vs => szV v + szVs vs

def szPs : List (Value × Value) → Nat
  | [] => 0
  | p :: ps => szV p.1 + szV p.2 + szPs ps

end

mutual

/-- Encode a value: a tag byte followed by the payload. -/
def encodeV : Value → List Nat
  | .vnull => [0]
  | .vbool b => [if b then 2 else 1]
  | .vint i => 3 :: intEnc i
  | .vstr s => 4 :: (natEnc s.data.length ++ charsEnc s.data)
  | .vbin bs => 5 :: (natEnc bs.length ++ binEnc bs)
  | .vtime t => 6 :: intEnc t
  | .varr l => 7 :: (natEnc l.length ++ encodeVs l)
  | .vmap ps => 8 :: (natEnc ps.length ++ encodePs ps)

def encodeVs : List Value → List Nat
  | [] => []
  | v :: vs => encodeV v ++ encodeVs vs

def encodePs : List (Value × Value) → List Nat
  | [] => []
  | p :: ps => encodeV p.1 ++ encodeV p.2 ++ encodePs ps

end

mutual

/-- Decode a value (fuel-bounded; `fuel` larger than the structural size
of the encoded value is always sufficient). -/
def decodeV : Nat → List Nat → Option (Value × List Nat)
  | 0, _ => none
  | _ + 1, [] => none
  | fuel + 1, tag :: rest =>
    match tag with
    | 0 => some (.vnull, rest)
    | 1 => some (.vbool false, rest)
    | 2 => some (.vbool true, rest)
    | 3 => (intDec rest).map (fun p => (.vint p.1, p.2))
    | 4 =>
      match natDec rest with
      | some (n, r1) =>
        match charsDec n r1 with
        | some (cs, r2) => some (.vstr (String.mk cs), r2)
        | none => none
      | none => none
    | 5 =>
      match natDec rest with
      | some (n, r1) =>
        match binsDec n r1 with
        | some (ms, r2) => some (.vbin ms, r2)
        | none => none
      | none => none
    | 6 => (intDec rest).map (fun p => (.vtime p.1, p.2))
    | 7 =>
      match natDec rest with
      | some (n, r1) =>
        match decodeVs fuel n r1 with
        | some (l, r2) => some (.varr l, r2)
        | none => none
      | none => none
    | 8 =>
      match natDec rest with
      | some (n, r1) =>
        match decodePs fuel n r1 with
        | some (ps, r2) => some (.vmap ps, r2)
        | none => none
      | none => none
    | _ => none
termination_by fuel bs => (fuel, 0, bs.length)

def decodeVs : Nat → Nat → List Nat → Option (List Value × List Nat)
  | _, 0, bs => some ([], bs)
  | fuel, n + 1, bs =>
    match decodeV fuel bs with
    | some (v, r1) =>
      match decodeVs fuel n r1 with
      | some (l, r2) => some (v :: l, r2)
      | none => none
    | none => none
termination_by fuel n bs => (fuel, n + 1, bs.length)

def decodePs : Nat → Nat → List Nat → Option (List (Value × Value) × List Nat)
  | _, 0, bs => some ([], bs)
  | fuel, n + 1, bs =>
    match decodeV fuel bs with
    | some (k, r1) =>
      match decodeV fuel r1 with
      | some (v, r2) =>
        match decodePs fuel n r2 with
        | some (ps, r3) => some ((k, v) :: ps, r3)
        | none => none
      | none => none
    | none => none
termination_by fuel n bs => (fuel, n + 1, bs.length)

end

/- ===================== Codec round-trip lemmas ===================== -/

theorem natDec_natEncF : ∀ fuel n rest, n < fuel →
    natDec (natEncF fuel n ++ rest) = some (n, rest) := by
  intro fuel
  induction fuel with
  | zero => intro n rest h; exact absurd h (Nat.not_lt_zero n)
  | succ fuel ih =>
    intro n rest h
    by_cases h128 : n < 128
    · simp [natEncF, h128, natDec]
    · have hlt : n / 128 < fuel := by
        have : n / 128 < n := Nat.div_lt_self (by omega) (by omega)
        omega
      have hrec := ih (n / 128) rest hlt
      simp only [natEncF, if_neg h128, List.cons_append, natDec]
      rw [if_neg (by omega)]
      rw [hrec]
      have hval : 128 + n % 128 - 128 + 128 * (n / 128) = n := by
        have := Nat.mod_add_div n 128
        omega
      simp only [Option.some.injEq, Prod.mk.injEq]
      constructor
      · have := Nat.mod_add_div n 128
        omega
      · trivial

theorem natDec_natEnc (n : Nat) (rest : List Nat) :
    natDec (natEnc n ++ rest) = some (n, rest) :=
  natDec_natEncF (n + 1) n rest (Nat.lt_succ_self n)

theorem intDec_intEnc (i : Int) (rest : List Nat) :
    intDec (intEnc i ++ rest) = some (i, rest) := by
  cases i with
  | ofNat n => simp only [intEnc, List.cons_append, intDec, natDec_natEnc]; rfl
  | negSucc n => simp only [intEnc, List.cons_append, intDec, natDec_natEnc]; rfl

theorem charsDec_charsEnc : ∀ (l : List Char) (rest : List Nat),
    charsDec l.length (charsEnc l ++ rest) = some (l, rest) := by
  intro l
  induction l with
  | nil => intro rest; simp [charsEnc, charsDec]
  | cons c cs ih =>
    intro rest
    show charsDec (cs.length + 1) (charsEnc (c :: cs) ++ rest) = _
    have he : charsEnc (c :: cs) = natEnc c.toNat ++ charsEnc cs := by
      simp [charsEnc]
    rw [he, List.append_assoc]
    simp only [charsDec]
    rw [natDec_natEnc]
    simp [ih, Char.ofNat_toNat]

theorem binsDec_binEnc : ∀ (l : List Nat) (rest : List Nat),
    binsDec l.length (binEnc l ++ rest) = some (l, rest) := by
  intro l
  induction l with
  | nil => intro rest; simp [binEnc, binsDec]
  | cons m ms ih =>
    intro rest
    show binsDec (ms.length + 1) (binEnc (m :: ms) ++ rest) = _
    have he : binEnc (m :: ms) = natEnc m ++ binEnc ms := by
      simp [binEnc]
    rw [he, List.append_assoc]
    simp only [binsDec]
    rw [natDec_natEnc]
    simp [ih]

theorem szV_mem_le {x : Value} : ∀ {l : List Value}, x ∈ l → szV x ≤ szVs l := by
  intro l h
  induction l with
  | nil => cases h
  | cons v vs ih =>
    rcases List.mem_cons.mp h with rfl | h2
    · simp only [szVs]
      omega
    · have := ih h2
      simp only [szVs]
      omega

theorem szPs_mem_le {p : Value × Value} : ∀ {ps : List (Value × Value)}, p ∈ ps →
    szV p.1 + szV p.2 ≤ szPs ps := by
  intro ps h
  induction ps with
  | nil => cases h
  | cons q qs ih =>
    rcases List.mem_cons.mp h with rfl | h2
    · simp only [szPs]
      omega
    · have := ih h2
      simp only [szPs]
      omega

mutual

theorem szV_le_len : (v : Value) → szV v ≤ (encodeV v).length
  | .vnull => by simp only [szV, encodeV, List.length_cons]; omega
  | .vbool b => by simp only [szV, encodeV, List.length_cons]; omega
  | .vint i => by simp only [szV, encodeV, List.length_cons]; omega
  | .vstr s => by simp only [szV, encodeV, List.length_cons]; omega
  | .vbin bs => by simp only [szV, encodeV, List.length_cons]; omega
  | .vtime t => by simp only [szV, encodeV, List.length_cons]; omega
  | .varr l => by
    have h := szVs_le_len l
    simp only [szV, encodeV, List.length_cons, List.length_append]
    omega
  | .vmap ps => by
    have h := szPs_le_len ps
    simp only [szV, encodeV, List.length_cons, List.length_append]
    omega

theorem szVs_le_len : (l : List Value) → szVs l ≤ (encodeVs l).length
  | [] => by simp [szVs, encodeVs]
  | v :: vs => by
    have h1 := szV_le_len v
    have h2 := szVs_le_len vs
    simp only [szVs, encodeVs, List.length_append]
    omega

theorem szPs_le_len : (ps : List (Value × Value)) → szPs ps ≤ (encodePs ps).length
  | [] => by simp [szPs, encodePs]
  | p :: ps => by
    have h1 := szV_le_len p.1
    have h2 := szV_le_len p.2
    have h3 := szPs_le_len ps
    simp only [szPs, encodePs, List.length_append]
    omega

end

theorem decodeVs_enc (fuel : Nat)
    (ih : ∀ v rest, szV v < fuel → decodeV fuel (encodeV v ++ rest) = some (v, rest)) :
    ∀ (l : List Value) (rest : List Nat), (∀ v ∈ l, szV v < fuel) →
      decodeVs fuel l.length (encodeVs l ++ rest) = some (l, rest) := by
  intro l
  induction l with
  | nil => intro rest _; simp [encodeVs, decodeVs]
  | cons v vs ihl =>
    intro rest h
    have hv : szV v < fuel := h v (List.mem_cons_self v vs)
    have hvs : ∀ x ∈ vs, szV x < fuel := fun x hx => h x (List.mem_cons_of_mem v hx)
    show decodeVs fuel (vs.length + 1) (encodeVs (v :: vs) ++ rest) = _
    have he : encodeVs (v :: vs) = encodeV v ++ encodeVs vs := by simp [encodeVs]
    rw [he, List.append_assoc]
    simp only [decodeVs]
    rw [ih v _ hv]
    simp [ihl _ hvs]

theorem decodePs_enc (fuel : Nat)
    (ih : ∀ v rest, szV v < fuel → decodeV fuel (encodeV v ++ rest) = some (v, rest)) :
    ∀ (ps : List (Value × Value)) (rest : List Nat),
      (∀ p ∈ ps, szV p.1 < fuel ∧ szV p.2 < fuel) →
      decodePs fuel ps.length (encodePs ps ++ rest) = some (ps, rest) := by
  intro ps
  induction ps with
  | nil => intro rest _; simp [encodePs, decodePs]
  | cons p qs ihl =>
    intro rest h
    have hp := h p (List.mem_cons_self p qs)
    have hqs : ∀ q ∈ qs, szV q.1 < fuel ∧ szV q.2 < fuel :=
      fun q hq => h q (List.mem_cons_of_mem p hq)
    show decodePs fuel (qs.length + 1) (encodePs (p :: qs) ++ rest) = _
    have he : encodePs (p :: qs) = encodeV p.1 ++ (encodeV p.2 ++ encodePs qs) := by
      simp [encodePs]
    rw [he, List.append_assoc]
    simp only [decodePs]
    rw [List.append_assoc]
    rw [ih p.1 _ hp.1]
    have h2 := ih p.2 (encodePs qs ++ rest) hp.2
    have h3 := ihl rest hqs
    simp [h2, h3]

theorem decodeV_encodeV : ∀ (fuel : Nat) (v : Value) (rest : List Nat), szV v < fuel →
    decodeV fuel (encodeV v ++ rest) = some (v, rest) := by
  intro fuel
  induction fuel with
  | zero => intro v rest h; exact absurd h (Nat.not_lt_zero _)
  | succ fuel ih =>
    intro v rest h
    cases v with
    | vnull => simp [encodeV, decodeV]
    | vbool b => cases b <;> simp [encodeV, decodeV]
    | vint i =>
      show decodeV (fuel + 1) ((3 :: intEnc i) ++ rest) = _
      simp only [List.cons_append, decodeV]
      rw [intDec_intEnc]
      rfl
    | vtime t =>
      show decodeV (fuel + 1) ((6 :: intEnc t) ++ rest) = _
      simp only [List.cons_append, decodeV]
      rw [intDec_intEnc]
      rfl
    | vstr s =>
      show decodeV (fuel + 1) ((4 :: (natEnc s.data.length ++ charsEnc s.data)) ++ rest) = _
      simp only [List.cons_append, List.append_assoc, decodeV]
      rw [natDec_natEnc]
      have hc := charsDec_charsEnc s.data rest
      rw [show s.data.length = s.length from rfl] at hc
      simp [hc]
    | vbin bs =>
      show decodeV (fuel + 1) ((5 :: (natEnc bs.length ++ binEnc bs)) ++ rest) = _
      simp only [List.cons_append, List.append_assoc, decodeV]
      rw [natDec_natEnc]
      simp [binsDec_binEnc]
    | varr l =>
      have hl : szVs l < fuel := by
        simp only [szV] at h
        omega
      have hmem : ∀ x ∈ l, szV x < fuel := fun x hx => lt_of_le_of_lt (szV_mem_le hx) hl
      show decodeV (fuel + 1) ((7 :: (natEnc l.length ++ encodeVs l)) ++ rest) = _
      simp only [List.cons_append, List.append_assoc, decodeV]
      rw [natDec_natEnc]
      simp [decodeVs_enc fuel ih l rest hmem]
    | vmap ps =>
      have hps : szPs ps < fuel := by
        simp only [szV] at h
        omega
      have hmem : ∀ p ∈ ps, szV p.1 < fuel ∧ szV p.2 < fuel := by
        intro p hp
        have := szPs_mem_le hp
        omega
      show decodeV (fuel + 1) ((8 :: (natEnc ps.length ++ encodePs ps)) ++ rest) = _
      simp only [List.cons_append, List.append_assoc, decodeV]
      rw [natDec_natEnc]
      simp [decodePs_enc fuel ih ps rest hmem]

/- ===================== Settings store (lib/settings.js) ===================== -/

/-- The settings hash `NS+"settings"` (a single Redis hash): field name →
stored bytes.  The Redis client is external; a hash field either holds a
byte string or is absent. -/
def SettingsHash : Type := String → Option (List Nat)

namespace Settings

/-- Embedding of `Settings.set` (object form): encode each property with
the binary codec and write all of them into the settings hash in one
`hmset`.  Later properties overwrite earlier ones with the same key,
as in a JS object literal / `hmset` argument list. -/
def set (props : List (String × Value)) (h : SettingsHash) : SettingsHash :=
  props.foldl (fun acc kv => fun f => if f = kv.1 then some (encodeV kv.2) else acc f) h

/-- Decode one fetched hash field the way `Settings.get` does: a missing
buffer or a decode error makes the field absent (`try { ... } catch`). -/
def decodeBuf (b : Option (List Nat)) : Option Value :=
  match b with
  | none => none
  | some bs =>
    match decodeV (bs.length + 1) bs with
    | some (v, _) => some v
    | none => none

/-- Embedding of `Settings.get` in its single-key form (`keys.length === 1`
returns `data[keys[0]]`). -/
def get (h : SettingsHash) (k : String) : Option Value :=
  decodeBuf (h k)

/-- Embedding of `Settings.get` on a key list: decode every present field,
keyed by request order. -/
def getMany (h : SettingsHash) (keys : List String) : List (String × Option Value) :=
  keys.map (fun k => (k, decodeBuf (h k)))

/-- Embedding of `Settings.has`: `hexists` on the settings hash. -/
def has (h : SettingsHash) (k : String) : Bool :=
  (h k).isSome

end Settings

/-- C9: for every key `k` and every value `v` representable by the binary
codec (nulls, booleans, integers, timestamps, strings, byte strings,
arrays, nested maps), `Settings.set({k: v})` followed by
`Settings.get(k)` returns `v`. -/
theorem settings_C9_set_get_roundtrip (h : SettingsHash) (k : String) (v : Value) :
    Settings.get (Settings.set [(k, v)] h) k = some v := by
  show Settings.decodeBuf ((Settings.set [(k, v)] h) k) = some v
  have hk : (Settings.set [(k, v)] h) k = some (encodeV v) := by
    show (if k = k then some (encodeV v) else h k) = some (encodeV v)
    rw [if_pos rfl]
  rw [hk]
  show (match decodeV ((encodeV v).length + 1) (encodeV v) with
    | some (w, _) => some w
    | none => none) = some v
  have hsz : szV v < (encodeV v).length + 1 := Nat.lt_succ_of_le (szV_le_len v)
  have hrt := decodeV_encodeV ((encodeV v).length + 1) v [] hsz
  rw [List.append_nil] at hrt
  rw [hrt]

/- ===================== JS error objects ===================== -/

/-- A thrown JS `Error` as the library uses it: a message plus the
optional `code` and `responseCode` properties assigned to it. -/
structure JsError where
  message : String
  code : Option String := none
  responseCode : Option Nat := none
deriving DecidableEq, Repr

/- ===================== Challenge store (lib/acme-challenge.js) ===================== -/

/-- One flat Redis key: stored bytes plus the absolute expiry instant
(ms) set via `expire`. -/
structure FlatEntry where
  value : List Nat
  expiresAt : Option Int
deriving DecidableEq, Repr

/-- The flat keyspace of the Redis database. -/
def FlatStore : Type := String → Option FlatEntry

namespace AcmeChallenge

/-- `DEFAULT_TTL = 2 * 3600 * 1000` — "Unfinished challenges are deleted
after this amount of time", in milliseconds. -/
def DEFAULT_TTL : Int := 2 * 3600 * 1000

/-- Constructor configuration: optional namespace and optional ttl. -/
structure Config where
  nsOpt : Option String := none
  ttl : Option Int := none
deriving DecidableEq, Repr

/-- `this.ns = namespace ? namespace + ":" : ""`. -/
def Config.ns (cfg : Config) : String :=
  match cfg.nsOpt with
  | some n => n ++ ":"
  | none => ""

/-- `this.ttl = ttl || DEFAULT_TTL` (a ttl of 0 is falsy in JS and also
falls back to the default). -/
def Config.ttlEff (cfg : Config) : Int :=
  match cfg.ttl with
  | some t => if t = 0 then DEFAULT_TTL else t
  | none => DEFAULT_TTL

/-- `getKey(name)` returns `ns + "certs:" + name`. -/
def getKey (cfg : Config) (name : String) : String :=
  cfg.ns ++ "certs:" ++ name

/-- The flat key of a challenge record: `NS + "challenge:<D>:<T>"`. -/
def challengeKey (cfg : Config) (domain token : String) : String :=
  getKey cfg ("challenge:" ++ domain ++ ":" ++ token)

/-- Embedding of `setData`: a single atomic `multi().set(...).expire(...)`
pipeline writing the encoded record and its expiry.  Modelled from the
spec for the external KV client: `expire` grants the key a time-to-live of
the given number of milliseconds (§4.2 "in the same atomic pipeline sets
an expiry of `ttl` ms"), so the entry expires at `now + ttl`. -/
def setData (cfg : Config) (now : Int) (st : FlatStore) (domain token : String)
    (data : Value) : FlatStore :=
  fun k =>
    if k = challengeKey cfg domain token then
      some { value := encodeV data, expiresAt := some (now + cfg.ttlEff) }
    else st k

/-- The record `set` composes:
`{acme: {token, secret: {value, created: now, expires: now + ttl}}}`. -/
def challengeRecord (token keyAuthorization : String) (now ttl : Int) : Value :=
  .vmap [(.vstr "acme", .vmap [
    (.vstr "token", .vstr token),
    (.vstr "secret", .vmap [
      (.vstr "value", .vstr keyAuthorization),
      (.vstr "created", .vtime now),
      (.vstr "expires", .vtime (now + ttl))])])]

/-- The `{challenge: {altname, keyAuthorization, token}}` argument of the
challenge-plugin `set`. -/
structure SetOpts where
  altname : String
  keyAuthorization : String
  token : String
deriving DecidableEq, Repr

/-- Embedding of `AcmeChallenge.set`: require the settings field
`domain:<D>:data` to exist (else throw a 404 "Domain not found" error —
note the source sets only `responseCode`, no `code`), then store the
challenge record via `setData` and return `true`. -/
def set (cfg : Config) (now : Int) (settings : SettingsHash) (st : FlatStore)
    (opts : SetOpts) : Except JsError Bool × FlatStore :=
  let domain := normalizeDomainStr opts.altname
  let dataKey := "domain:" ++ domain ++ ":data"
  if Settings.has settings dataKey then
    (Except.ok true,
      setData cfg now st domain opts.token
        (challengeRecord opts.token opts.keyAuthorization now cfg.ttlEff))
  else
    (Except.error { message := "Domain not found", code := none, responseCode := some 404 }, st)

end AcmeChallenge

/-- C3: every challenge write stores the record at
`NS + "challenge:<D>:<T>"` and, in the same atomic pipeline, gives the key
a store-side expiry of the configured ttl in milliseconds; with the
default configuration the ttl is `DEFAULT_TTL = 2 h = 7,200,000 ms`, so
the key expires 7,200,000 ms after the write. -/
theorem challenge_C3_setData_ttl (cfg : AcmeChallenge.Config) (now : Int) (st : FlatStore)
    (domain token : String) (data : Value) :
    (AcmeChallenge.setData cfg now st domain token data)
        (AcmeChallenge.challengeKey cfg domain token) =
      some { value := encodeV data, expiresAt := some (now + cfg.ttlEff) } ∧
    AcmeChallenge.challengeKey cfg domain token =
      cfg.ns ++ "certs:" ++ "challenge:" ++ domain ++ ":" ++ token ∧
    AcmeChallenge.Config.ttlEff { nsOpt := cfg.nsOpt, ttl := none } = 7200000 ∧
    AcmeChallenge.DEFAULT_TTL = 2 * 3600 * 1000 := by
  refine ⟨?_, ?_, rfl, rfl⟩
  · unfold AcmeChallenge.setData
    rw [if_pos rfl]
  · unfold AcmeChallenge.challengeKey AcmeChallenge.getKey
    simp only [String.append_assoc]

/-- Concrete configuration, settings hash and options used by the C8
counterexample and witness. -/
def cfgC8 : AcmeChallenge.Config := { nsOpt := some "test", ttl := none }

def optsC8 : AcmeChallenge.SetOpts :=
  { altname := "example.com", keyAuthorization := "abc.def", token := "TKN" }

def settingsC8 : SettingsHash :=
  fun k => if k = "domain:example.com:data" then some [] else none

/-- C8 (amended): `set(opts)` for a domain whose `domain:<D>:data`
settings field is missing writes nothing and throws an error whose
`responseCode` is 404 and whose message is "Domain not found", but which
carries NO machine code (`err.code` is never assigned); when the field
exists it stores `{acme: {token, secret: {value, created: now,
expires: now + ttl}}}` and returns `true`.  The un-amended claim (machine
code `not_found`) is refuted by `challenge_C8_counterexample`. -/
theorem challenge_C8_set_behavior (cfg : AcmeChallenge.Config) (now : Int)
    (settings : SettingsHash) (st : FlatStore) (opts : AcmeChallenge.SetOpts) :
    (Settings.has settings
        ("domain:" ++ normalizeDomainStr opts.altname ++ ":data") = false →
      AcmeChallenge.set cfg now settings st opts =
        (Except.error { message := "Domain not found", code := none, responseCode := some 404 },
          st)) ∧
    (Settings.has settings
        ("domain:" ++ normalizeDomainStr opts.altname ++ ":data") = true →
      AcmeChallenge.set cfg now settings st opts =
        (Except.ok true,
          AcmeChallenge.setData cfg now st (normalizeDomainStr opts.altname) opts.token
            (AcmeChallenge.challengeRecord opts.token opts.keyAuthorization now
              cfg.ttlEff))) := by
  constructor
  · intro h
    simp only [AcmeChallenge.set, h, Bool.false_eq_true, if_false]
  · intro h
    simp only [AcmeChallenge.set, h, if_true]

/-- Witness for C8: with the settings field present, `set` succeeds. -/
theorem challenge_C8_witness :
    AcmeChallenge.set cfgC8 0 settingsC8 (fun _ => none) optsC8 =
      (Except.ok true,
        AcmeChallenge.setData cfgC8 0 (fun _ => none) (normalizeDomainStr optsC8.altname)
          optsC8.token
          (AcmeChallenge.challengeRecord optsC8.token optsC8.keyAuthorization 0
            cfgC8.ttlEff)) :=
  (challenge_C8_set_behavior cfgC8 0 settingsC8 (fun _ => none) optsC8).2 (by decide)

/-- Counterexample for C8 as stated: for an unknown domain, the thrown
error has `responseCode` 404 but its machine `code` is absent — the
source never assigns `err.code = "not_found"`. -/
theorem challenge_C8_counterexample :
    AcmeChallenge.set cfgC8 0 (fun _ => none) (fun _ => none) optsC8 =
      (Except.error { message := "Domain not found", code := none, responseCode := some 404 },
        (fun _ => none)) := rfl

/- ===================== Certificate coordinator (lib/certs.js) ===================== -/

namespace Certs

/-- A CAA DNS record as returned by `resolver.resolveCaa` (external DNS
resolver); only the `issue` tag matters to the walk.  `none` entries model
null records (the code guards `r && r.issue`). -/
structure CaaRecord where
  issue : Option String := none
deriving DecidableEq, Repr

/-- The outcome of one CAA query: a DNS error (caught and treated as "no
record") or a record list. -/
inductive DnsAnswer where
  | err : DnsAnswer
  | ok : List (Option CaaRecord) → DnsAnswer
deriving DecidableEq, Repr

/-- The `{err, code, time}` object written to `domain:<D>:lastError`. -/
structure LastErr where
  err : String
  code : Option String := none
  time : Int := 0
deriving DecidableEq, Repr

/-- The object stored at the settings field `domain:<D>:data`.  A `none`
field is absent from the object. -/
structure DataRec where
  domain : Option String := none
  status : Option String := none
  cert : Option String := none
  ca : Option (List String) := none
  serialNumber : Option String := none
  fingerprint : Option String := none
  altNames : Option (List String) := none
  validFrom : Option Int := none
  validTo : Option Int := none
deriving DecidableEq, Repr

/-- The per-domain slice of the settings hash used by `certs.js`
(`domain:<D>:data`, `:lastCheck`, `:privateKey`, `:lastError`,
`:certVersion`) plus the flat fail-safe key `lock:safe:<D>`.  Values are
held in decoded form; the codec round-trip (C9) justifies the typed
view. -/
structure Store where
  data : Option DataRec := none
  lastCheck : Option Int := none
  privateKey : Option String := none
  lastError : Option LastErr := none
  certVersion : Option Int := none
  safeLockTtl : Option Int := none
deriving DecidableEq, Repr

/-- The merged record returned by `loadCertificateData` (`false` ↦
`none`). -/
structure CertView where
  data : DataRec
  lastCheck : Option Int
  privateKey : Option String
  lastError : Option LastErr
  certVersion : Option Int
deriving DecidableEq, Repr

/-- An `updates` object passed to `setCertificateData`: `some` marks a
property that is present on the object (`"k" in updates`); `cert`,
`privateKey`, `lastCheck` and `lastError` can be present-but-null, hence
doubly optional. -/
structure Updates where
  domain : Option String := none
  status : Option String := none
  cert : Option (Option String) := none
  ca : Option (List String) := none
  serialNumber : Option String := none
  fingerprint : Option String := none
  altNames : Option (List String) := none
  validFrom : Option Int := none
  validTo : Option Int := none
  privateKey : Option (Option String) := none
  lastCheck : Option (Option Int) := none
  lastError : Option (Option LastErr) := none
  certVersion : Option Int := none
deriving DecidableEq, Repr

/-- `let incrVersion = !!updates.cert`: the update carries a truthy
`cert` — a non-empty string (`null`, `""` and an absent property are
falsy). -/
def certTruthy (u : Updates) : Bool :=
  match u.cert with
  | some (some s) => s != ""
  | _ => false

/-- `Object.keys(updates).length` after `privateKey`, `lastCheck`,
`lastError` and `certVersion` have been deleted: is anything left to
merge into `domain:<D>:data`? -/
def hasDataFields (u : Updates) : Bool :=
  u.domain.isSome || u.status.isSome || u.cert.isSome || u.ca.isSome ||
  u.serialNumber.isSome || u.fingerprint.isSome || u.altNames.isSome ||
  u.validFrom.isSome || u.validTo.isSome

/-- `Object.assign(currendData || {}, updates)`: every present property
overwrites (`cert: null` clears the field). -/
def mergeData (cur : DataRec) (u : Updates) : DataRec :=
  { domain := match u.domain with | some v => some v | none => cur.domain
    status := match u.status with | some v => some v | none => cur.status
    cert := match u.cert with | some v => v | none => cur.cert
    ca := match u.ca with | some v => some v | none => cur.ca
    serialNumber := match u.serialNumber with | some v => some v | none => cur.serialNumber
    fingerprint := match u.fingerprint with | some v => some v | none => cur.fingerprint
    altNames := match u.altNames with | some v => some v | none => cur.altNames
    validFrom := match u.validFrom with | some v => some v | none => cur.validFrom
    validTo := match u.validTo with | some v => some v | none => cur.validTo }

/-- The writes `setCertificateData` collects into `values` (the encrypt
transform is the identity default). -/
def applyValues (u : Updates) (s : Store) : Store :=
  let s1 := match u.privateKey with
    | some v => { s with privateKey := v }
    | none => s
  let s2 := match u.lastCheck with
    | some v => { s1 with lastCheck := v }
    | none => s1
  let s3 := match u.lastError with
    | some v => { s2 with lastError := v }
    | none => s2
  if hasDataFields u then { s3 with data := some (mergeData (s3.data.getD {}) u) } else s3

/-- Embedding of `setCertificateData`: collect the side fields, merge the
remaining properties into `domain:<D>:data`, and `hincrby` the
`certVersion` field by one exactly when the update carries a truthy
`cert` (`certVersion` itself is deleted from updates and never written
directly). -/
def setCertificateData (u : Updates) (s : Store) : Store :=
  let incrVersion := certTruthy u
  let s4 := applyValues u s
  if incrVersion then { s4 with certVersion := some (s4.certVersion.getD 0 + 1) } else s4

/-- Embedding of `loadCertificateData`: `false` when `domain:<D>:data` is
absent, else the data object merged with the side fields
(`Number(certVersion) || null` nullifies an absent or zero counter). -/
def loadCertificateData (s : Store) : Option CertView :=
  match s.data with
  | none => none
  | some d =>
    some { data := d
           lastCheck := s.lastCheck
           privateKey := s.privateKey
           lastError := s.lastError
           certVersion :=
             match s.certVersion with
             | some v => if v = 0 then none else some v
             | none => none }

/-- `RENEW_AFTER_REMAINING = 10000 + 30 * 24 * 3600 * 1000` ms. -/
def RENEW_AFTER_REMAINING : Int := 10000 + 30 * 24 * 3600 * 1000

/-- `BLOCK_RENEW_AFTER_ERROR_TTL = 10` (debug value, in seconds). -/
def BLOCK_RENEW_AFTER_ERROR_TTL : Int := 10

/-- `caaDomains.map(normalizeDomain).filter(d => d)`. -/
def normCaaDomains (ds : List String) : List String :=
  (ds.map normalizeDomainStr).filter (fun d => d != "")

/-- `normalizeDomain(r && r.issue)`: a null record or a missing `issue`
coerces to the empty string. -/
def recIssueNorm (r : Option CaaRecord) : String :=
  normalizeDomainStr (match r with
    | some rec => rec.issue.getD ""
    | none => "")

/-- `caaRes.some(r => caaDomains.includes(normalizeDomain(r && r.issue)))`. -/
def caaMatch (cds : List String) (recs : List (Option CaaRecord)) : Bool :=
  recs.any (fun r => cds.contains (recIssueNorm r))

/-- The `caa_mismatch` error thrown at suffix `sub`. -/
def caaErr (sub domain : String) : JsError :=
  { message := "LE not listed in the CAA record for " ++ sub ++ " (" ++ domain ++ ")"
    code := some "caa_mismatch"
    responseCode := some 403 }

/-- The CAA loop of `validateDomain` (`for (i = 0; i < parts.length - 1)`
over `parts.slice(i).join(".")`), instrumented with the list of suffixes
it actually queried: a DNS error is treated as "no record" and the walk
continues; the first non-empty answer either fails the check
(`caa_mismatch`) or ends it successfully (`break`). -/
def caaWalk (cds : List String) (dns : String → DnsAnswer) (domain : String) :
    List String → Except JsError Unit × List String
  | p0 :: p1 :: rest =>
    let sub := String.intercalate "." (p0 :: p1 :: rest)
    match dns sub with
    | .err =>
      let r := caaWalk cds dns domain (p1 :: rest)
      (r.1, sub :: r.2)
    | .ok recs =>
      if !recs.isEmpty && !caaMatch cds recs then
        (.error (caaErr sub domain), [sub])
      else if !recs.isEmpty then
        (.ok (), [sub])
      else
        let r := caaWalk cds dns domain (p1 :: rest)
        (r.1, sub :: r.2)
  | _ => (.ok (), [])

/-- Embedding of `validateDomain`.  The joi syntactic check is an
external library; its verdict is supplied as `syntaxValid`.  The CAA walk
runs only when the runtime has `resolver.resolveCaa` (`caaSupported`) and
the normalized `caaDomains` list is non-empty.  The `invalid_domain`
message keeps the source's unexpanded template literal. -/
def validateDomain (syntaxValid caaSupported : Bool) (caaDomainsCfg : List String)
    (dns : String → DnsAnswer) (domain : String) : Except JsError Bool :=
  if !syntaxValid then
    .error { message := "${domain} is not a valid domain name"
             code := some "invalid_domain"
             responseCode := some 400 }
  else
    let cds := normCaaDomains caaDomainsCfg
    if caaSupported && !cds.isEmpty then
      match (caaWalk cds dns domain (domain.splitOn ".")).1 with
      | .error e => .error e
      | .ok _ => .ok true
    else .ok true

end Certs

namespace Certs

/-- The parsed certificate material a successful
`acme.certificates.create` call yields: the PEM leaf (`cert.cert`; `""`
models a falsy `cert` property), the chain, and the fields
`parseCertificate` (external X.509 parser) extracts from the leaf. -/
structure CertMaterial where
  cert : String
  chain : List String := []
  serialNumber : String := ""
  fingerprint : String := ""
  altNames : List String := []
  validFrom : Int := 0
  validTo : Int := 0
deriving DecidableEq, Repr

/-- The environment of one `acquireCert` run: the verdicts and answers of
the external collaborators (joi, DNS, the lock service, the ACME client,
the RSA key generator) and the `setCertificateData` writes other
processes perform while this one waits on `lock:op:<D>`
(`waitAcquireLock` blocks up to three minutes; spec §3 confines mutation
of `domain:<D>:*` to coordinators running `setCertificateData`). -/
structure Env where
  syntaxValid : Bool := true
  caaSupported : Bool := true
  caaDomains : List String := ["letsencrypt.org"]
  dns : String → DnsAnswer := fun _ => .err
  now : Int := 0
  lockSuccess : Bool := true
  duringWait : List Updates := []
  account : Except JsError (Option Unit) := .ok (some ())
  acmeCreate : Except JsError (Option CertMaterial) := .ok none
  newPrivateKey : String := "PEM-NEW-KEY"

/-- What `acquireCert` hands back: a record (or `false` ↦ `none`), or a
rethrown error. -/
inductive AcquireResult where
  | returned : Option CertView → AcquireResult
  | thrown : JsError → AcquireResult
deriving DecidableEq, Repr

/-- The result of an `acquireCert` run: final store, returned value, and
two ghost flags — whether `acme.certificates.create` was invoked and
whether a new `cert` was written. -/
structure AcquireOut where
  store : Store
  result : AcquireResult
  acmeCalled : Bool
  storedNewCert : Bool
deriving DecidableEq, Repr

/-- JS truthiness of an optional string property. -/
def optStrTruthy : Option String → Bool
  | some s => s != ""
  | none => false

/-- The `{domain, privateKey, status: 'pending', lastError: null}` update
written when the record has no private key (step 6). -/
def pendingUpdate (domain pk : String) : Updates :=
  { domain := some domain
    privateKey := some (some pk)
    status := some "pending"
    lastError := some none }

/-- The update merged after a successful issuance (step 11):
`Object.assign(parseCertificate(cert.cert), {cert, ca, lastCheck,
lastError: null, status: 'valid'})`. -/
def successUpdate (now : Int) (mat : CertMaterial) : Updates :=
  { serialNumber := some mat.serialNumber
    fingerprint := some mat.fingerprint
    altNames := some mat.altNames
    validFrom := some mat.validFrom
    validTo := some mat.validTo
    cert := some (some mat.cert)
    ca := some mat.chain
    lastCheck := some (some now)
    lastError := some none
    status := some "valid" }

/-- The `lastError = {err, code, time}` update written on the failure
path. -/
def lastErrorUpdate (e : JsError) (now : Int) : Updates :=
  { lastError := some (some { err := e.message, code := e.code, time := now }) }

/-- The `catch` block of `acquireCert` (failures thrown in steps 5–11):
atomically set `lock:safe:<D> = 1` with TTL
`BLOCK_RENEW_AFTER_ERROR_TTL`; if a record exists, write `lastError`;
return the prior record if it has a cert, else rethrow. -/
def acquireFailure (env : Env) (existing : Option CertView) (s : Store) (e : JsError)
    (called : Bool) : AcquireOut :=
  let s1 := { s with safeLockTtl := some BLOCK_RENEW_AFTER_ERROR_TTL }
  let s2 :=
    if existing.isSome then
      setCertificateData (lastErrorUpdate e env.now) s1
    else s1
  match existing with
  | some v =>
    if optStrTruthy v.data.cert then
      { store := s2, result := .returned existing, acmeCalled := called, storedNewCert := false }
    else
      { store := s2, result := .thrown e, acmeCalled := called, storedNewCert := false }
  | none => { store := s2, result := .thrown e, acmeCalled := called, storedNewCert := false }

/-- The renewal check right after the lock is acquired (source line 318).
NOTE: it re-checks `existingCertificateData`, the snapshot loaded BEFORE
the lock; despite the adjacent comment "reload from db, maybe already
renewed", no reload happens. -/
def freshEnough (existing : Option CertView) (now : Int) : Bool :=
  match existing with
  | some v =>
    match v.data.validTo with
    | some t => decide (t > now + RENEW_AFTER_REMAINING)
    | none => false
  | none => false

/-- `existingCertificateData.privateKey` (reading a property of `false`
yields `undefined`). -/
def existingPrivateKey (existing : Option CertView) : Option String :=
  match existing with
  | some v => v.privateKey
  | none => none

/-- Steps 5–12 of `acquireCert`: everything inside `lock:op:<D>`. -/
def acquireUnderLock (env : Env) (domain : String) (existing : Option CertView)
    (s1 : Store) : AcquireOut :=
  if freshEnough existing env.now then
    { store := s1, result := .returned existing, acmeCalled := false, storedNewCert := false }
  else
    let pk0 := existingPrivateKey existing
    let s2 :=
      if pk0.isNone then
        setCertificateData (pendingUpdate domain env.newPrivateKey) s1
      else s1
    -- the CSR is built by an external pure library
    match env.account with
    | .error e => acquireFailure env existing s2 e false
    | .ok none =>
      -- acme account not found: `return false`, no fail-safe lock is set
      { store := s2, result := .returned none, acmeCalled := false, storedNewCert := false }
    | .ok (some _) =>
      match env.acmeCreate with
      | .error e => acquireFailure env existing s2 e true
      | .ok none =>
        { store := s2, result := .returned existing, acmeCalled := true, storedNewCert := false }
      | .ok (some mat) =>
        if mat.cert == "" then
          { store := s2, result := .returned existing, acmeCalled := true, storedNewCert := false }
        else
          let s3 := setCertificateData (successUpdate env.now mat) s2
          { store := s3, result := .returned (loadCertificateData s3), acmeCalled := true,
            storedNewCert := true }

/-- Embedding of `acquireCert`: normalize, load the existing record, honor
the fail-safe lock, validate the domain (a validation failure merely
returns the existing record), wait for `lock:op:<D>` (other holders may
write meanwhile), then run the issuance steps.  The `finally` release of
the op lock always runs; the lock itself lives in the external lock
service. -/
def acquireCert (env : Env) (domainInput : String) (s0 : Store) : AcquireOut :=
  let domain := normalizeDomainStr domainInput
  let existing := loadCertificateData s0
  if s0.safeLockTtl.isSome then
    { store := s0, result := .returned existing, acmeCalled := false, storedNewCert := false }
  else
    match validateDomain env.syntaxValid env.caaSupported env.caaDomains env.dns domain with
    | .error _ =>
      { store := s0, result := .returned existing, acmeCalled := false, storedNewCert := false }
    | .ok _ =>
      let s1 := env.duringWait.foldl (fun st u => setCertificateData u st) s0
      if env.lockSuccess then acquireUnderLock env domain existing s1
      else
        { store := s1, result := .returned existing, acmeCalled := false, storedNewCert := false }

/-- What `getCertificate` returns: the cached record, or whatever
`acquireCert` produced. -/
inductive GetResult where
  | cached : CertView → GetResult
  | acquired : AcquireOut → GetResult
deriving DecidableEq, Repr

/-- The cache test of `getCertificate`:
`status === 'valid' && validTo && validTo >= new Date()` (a `Date` is
always truthy, so only presence is tested before the comparison). -/
def freshValid (cd : CertView) (now : Int) : Bool :=
  cd.data.status == some "valid" &&
    (match cd.data.validTo with
     | some t => decide (t ≥ now)
     | none => false)

/-- Embedding of `getCertificate`. -/
def getCertificate (env : Env) (domainInput : String) (s : Store) : GetResult :=
  match loadCertificateData s with
  | some cd =>
    if freshValid cd env.now then .cached cd else .acquired (acquireCert env domainInput s)
  | none => .acquired (acquireCert env domainInput s)

/-- The challenge object `routeHandler` receives from the challenge
store's `get`. -/
structure RHChallenge where
  keyAuthorization : String
deriving DecidableEq, Repr

/-- Embedding of `routeHandler` after input validation: the joi verdict
is supplied as `validationError`, the challenge-store lookup outcome as
`lookup`.  NOTE the source bug in the transport-error branch:
`err.code = 'ChallengeFail'` is assigned to the CAUGHT error object,
while the newly constructed `resErr` that is actually thrown carries only
`responseCode = 500` and no machine code. -/
def routeHandler (validationError : Option JsError)
    (lookup : Except JsError (Option RHChallenge)) : Except JsError String :=
  match validationError with
  | some ve =>
    .error { message := ve.message, code := some "InputValidationError", responseCode := some 400 }
  | none =>
    match lookup with
    | .error _ =>
      .error { message := "Failed to verify authentication token", code := none,
               responseCode := some 500 }
    | .ok ch =>
      match ch with
      | none =>
        .error { message := "Unknown challenge", code := some "ChallengeNotFound",
                 responseCode := some 404 }
      | some c =>
        if c.keyAuthorization == "" then
          .error { message := "Unknown challenge", code := some "ChallengeNotFound",
                   responseCode := some 404 }
        else .ok c.keyAuthorization

/-- The raw stored version counter (`hincrby` starts an absent field at
zero). -/
def storedVersion (s : Store) : Int := s.certVersion.getD 0

end Certs

namespace Certs

/-- The suffixes the spec's CAA walk visits, most specific first:
`parts.slice(i).join(".")` for `0 ≤ i < parts.length - 1` (down to the
registrable parent; the bare TLD is never queried). -/
def caaSuffixes : List String → List String
  | p0 :: p1 :: rest => String.intercalate "." (p0 :: p1 :: rest) :: caaSuffixes (p1 :: rest)
  | _ => []

/-- Spec §4.5: the first suffix whose CAA query returns a non-empty
answer, together with that answer; DNS errors count as "no record at
this level". -/
def firstCaaAnswer (dns : String → DnsAnswer) : List String → Option (String × List (Option CaaRecord))
  | [] => none
  | s :: ss =>
    match dns s with
    | .ok recs => if recs.isEmpty then firstCaaAnswer dns ss else some (s, recs)
    | .err => firstCaaAnswer dns ss

/-- The CAA verdict exactly as the spec words it: pass when no suffix has
a CAA record; at the first suffix with records, pass iff some `issue`
value (normalized) is a configured CAA domain, else `caa_mismatch`. -/
def specCaaResult (cds : List String) (dns : String → DnsAnswer) (domain : String)
    (parts : List String) : Except JsError Unit :=
  match firstCaaAnswer dns (caaSuffixes parts) with
  | none => .ok ()
  | some (s, recs) => if caaMatch cds recs then .ok () else .error (caaErr s domain)

/-- The suffixes the spec's walk queries: every suffix up to and
including the first one with a non-empty answer ("the walk stops at the
first suffix with any CAA answer"). -/
def specCaaQueried (dns : String → DnsAnswer) : List String → List String
  | [] => []
  | s :: ss =>
    match dns s with
    | .ok recs => if recs.isEmpty then s :: specCaaQueried dns ss else [s]
    | .err => s :: specCaaQueried dns ss

/-- `validateDomain` as the spec words it (§4.5): syntactic check, then —
when CAA is resolvable and `caaDomains` is non-empty — the declarative
CAA verdict; otherwise the CAA check is skipped. -/
def specValidateDomain (syntaxValid caaSupported : Bool) (caaDomainsCfg : List String)
    (dns : String → DnsAnswer) (domain : String) : Except JsError Bool :=
  if !syntaxValid then
    .error { message := "${domain} is not a valid domain name"
             code := some "invalid_domain"
             responseCode := some 400 }
  else
    let cds := normCaaDomains caaDomainsCfg
    if caaSupported && !cds.isEmpty then
      match specCaaResult cds dns domain (domain.splitOn ".") with
      | .error e => .error e
      | .ok _ => .ok true
    else .ok true

theorem caaWalk_eq_spec (cds : List String) (dns : String → DnsAnswer) (domain : String) :
    ∀ parts : List String,
      caaWalk cds dns domain parts =
        (specCaaResult cds dns domain parts, specCaaQueried dns (caaSuffixes parts)) := by
  intro parts
  induction parts with
  | nil => simp [caaWalk, caaSuffixes, specCaaResult, firstCaaAnswer, specCaaQueried]
  | cons p0 tail ih =>
    cases tail with
    | nil => simp [caaWalk, caaSuffixes, specCaaResult, firstCaaAnswer, specCaaQueried]
    | cons p1 rest =>
      cases hdns : dns (String.intercalate "." (p0 :: p1 :: rest)) with
      | err =>
        simp [caaWalk, caaSuffixes, specCaaResult, firstCaaAnswer, specCaaQueried, hdns, ih]
      | ok recs =>
        by_cases hempty : recs.isEmpty
        · simp [caaWalk, caaSuffixes, specCaaResult, firstCaaAnswer, specCaaQueried, hdns,
            hempty, ih]
        · have he : recs.isEmpty = false := by simpa using hempty
          by_cases hm : caaMatch cds recs
          · simp [caaWalk, caaSuffixes, specCaaResult, firstCaaAnswer, specCaaQueried, hdns,
              he, hm]
          · have hm2 : caaMatch cds recs = false := by simpa using hm
            simp [caaWalk, caaSuffixes, specCaaResult, firstCaaAnswer, specCaaQueried, hdns,
              he, hm2]

end Certs

/-- C6: the CAA walk of `validateDomain` refines the spec §4.5 word for
word: it queries suffixes from most specific upward, treats a DNS error
as "no record" and continues, stops at the first suffix with a non-empty
answer — failing there with `caa_mismatch` (403) unless some normalized
`issue` value is a configured CAA domain — passes when the walk exhausts
with no CAA record, and is skipped entirely when the normalized
`caaDomains` list is empty (or CAA resolution is unsupported). -/
theorem certs_C6_caa_walk_refines_spec :
    (∀ (sv cs : Bool) (cfg : List String) (dns : String → Certs.DnsAnswer) (domain : String),
      Certs.validateDomain sv cs cfg dns domain =
        Certs.specValidateDomain sv cs cfg dns domain) ∧
    (∀ (cds : List String) (dns : String → Certs.DnsAnswer) (domain : String)
        (parts : List String),
      Certs.caaWalk cds dns domain parts =
        (Certs.specCaaResult cds dns domain parts,
          Certs.specCaaQueried dns (Certs.caaSuffixes parts))) := by
  constructor
  · intro sv cs cfg dns domain
    unfold Certs.validateDomain Certs.specValidateDomain
    simp only [Certs.caaWalk_eq_spec]
  · intro cds dns domain parts
    exact Certs.caaWalk_eq_spec cds dns domain parts

/-- C7 (code bug): after a transport error in the challenge lookup,
`routeHandler` throws an error that carries `responseCode` 500 but NO
machine code — the source assigns `err.code = 'ChallengeFail'` to the
caught error object and then throws the fresh `resErr`, losing the code
(the spec's design notes flag exactly this slip).  The absent /
no-`keyAuthorization` branch does throw `ChallengeNotFound` (404) as
claimed. -/
theorem certs_C7_routeHandler_lookup_errors (e : JsError) :
    Certs.routeHandler none (Except.error e) =
      Except.error { message := "Failed to verify authentication token",
                     code := none, responseCode := some 500 } ∧
    Certs.routeHandler none (Except.ok none) =
      Except.error { message := "Unknown challenge", code := some "ChallengeNotFound",
                     responseCode := some 404 } ∧
    Certs.routeHandler none (Except.ok (some { keyAuthorization := "" })) =
      Except.error { message := "Unknown challenge", code := some "ChallengeNotFound",
                     responseCode := some 404 } :=
  ⟨rfl, rfl, rfl⟩

namespace Certs

theorem applyValues_certVersion (u : Updates) (s : Store) :
    (applyValues u s).certVersion = s.certVersion := by
  unfold applyValues
  cases hpk : u.privateKey <;> cases hlc : u.lastCheck <;> cases hle : u.lastError <;>
    by_cases hdf : hasDataFields u <;> simp [hdf]

theorem applyValues_safeLock (u : Updates) (s : Store) :
    (applyValues u s).safeLockTtl = s.safeLockTtl := by
  unfold applyValues
  cases hpk : u.privateKey <;> cases hlc : u.lastCheck <;> cases hle : u.lastError <;>
    by_cases hdf : hasDataFields u <;> simp [hdf]

theorem setCertificateData_version (u : Updates) (s : Store) :
    storedVersion (setCertificateData u s) =
      storedVersion s + (if certTruthy u then 1 else 0) := by
  unfold setCertificateData storedVersion
  by_cases hc : certTruthy u
  · simp [hc, applyValues_certVersion]
  · simp [hc, applyValues_certVersion]

theorem setCertificateData_safeLock (u : Updates) (s : Store) :
    (setCertificateData u s).safeLockTtl = s.safeLockTtl := by
  unfold setCertificateData
  by_cases hc : certTruthy u
  · simp [hc, applyValues_safeLock]
  · simp [hc, applyValues_safeLock]

theorem setCertificateData_version_mono (u : Updates) (s : Store) :
    storedVersion s ≤ storedVersion (setCertificateData u s) := by
  rw [setCertificateData_version]
  split <;> omega

theorem foldl_version_mono : ∀ (us : List Updates) (s : Store),
    storedVersion s ≤ storedVersion (us.foldl (fun st u => setCertificateData u st) s) := by
  intro us
  induction us with
  | nil => intro s; simp
  | cons u tl ih =>
    intro s
    simp only [List.foldl_cons]
    exact le_trans (setCertificateData_version_mono u s) (ih (setCertificateData u s))

theorem certTruthy_pendingUpdate (d pk : String) :
    certTruthy (pendingUpdate d pk) = false := rfl

theorem certTruthy_lastErrorUpdate (e : JsError) (now : Int) :
    certTruthy (lastErrorUpdate e now) = false := rfl

theorem certTruthy_successUpdate (now : Int) (mat : CertMaterial) :
    certTruthy (successUpdate now mat) = (mat.cert != "") := rfl

theorem setCertificateData_version_eq (u : Updates) (s : Store) (h : certTruthy u = false) :
    (setCertificateData u s).certVersion = s.certVersion := by
  unfold setCertificateData
  rw [h]
  simp [applyValues_certVersion]

theorem acquireFailure_version (env : Env) (existing : Option CertView) (s : Store)
    (e : JsError) (called : Bool) :
    storedVersion (acquireFailure env existing s e called).store = storedVersion s ∧
    (acquireFailure env existing s e called).storedNewCert = false := by
  unfold acquireFailure
  cases existing with
  | none => simp [storedVersion]
  | some v =>
    by_cases ht : optStrTruthy v.data.cert <;>
      simp [ht, storedVersion,
        setCertificateData_version_eq _ _ (certTruthy_lastErrorUpdate e env.now)]

theorem acquireFailure_safeLock (env : Env) (existing : Option CertView) (s : Store)
    (e : JsError) (called : Bool) :
    (acquireFailure env existing s e called).store.safeLockTtl =
      some BLOCK_RENEW_AFTER_ERROR_TTL := by
  unfold acquireFailure
  cases existing with
  | none => simp
  | some v =>
    by_cases ht : optStrTruthy v.data.cert <;> simp [ht, setCertificateData_safeLock]

theorem acquireUnderLock_version (env : Env) (domain : String) (existing : Option CertView)
    (s1 : Store) :
    storedVersion (acquireUnderLock env domain existing s1).store =
      storedVersion s1 +
        (if (acquireUnderLock env domain existing s1).storedNewCert then 1 else 0) := by
  unfold acquireUnderLock
  by_cases hf : freshEnough existing env.now
  · simp [hf]
  · have hs2 : ∀ sx : Store,
        storedVersion (if (existingPrivateKey existing).isNone then
            setCertificateData (pendingUpdate domain env.newPrivateKey) sx
          else sx) = storedVersion sx := by
      intro sx
      split
      · rw [setCertificateData_version, certTruthy_pendingUpdate]
        simp
      · rfl
    simp only [hf, Bool.false_eq_true, if_false]
    cases hacc : env.account with
    | error e =>
      have hv := acquireFailure_version env existing
        (if (existingPrivateKey existing).isNone then
            setCertificateData (pendingUpdate domain env.newPrivateKey) s1
          else s1) e false
      rw [hv.1, hv.2, hs2 s1]
      simp
    | ok acct =>
      cases acct with
      | none =>
        simp
        simpa using hs2 s1
      | some u =>
        cases hcr : env.acmeCreate with
        | error e =>
          have hv := acquireFailure_version env existing
            (if (existingPrivateKey existing).isNone then
                setCertificateData (pendingUpdate domain env.newPrivateKey) s1
              else s1) e true
          rw [hv.1, hv.2, hs2 s1]
          simp
        | ok mopt =>
          cases mopt with
          | none =>
            simp
            simpa using hs2 s1
          | some mat =>
            by_cases hm : mat.cert == ""
            · simp only [hm, if_true]
              simpa using hs2 s1
            · have hm2 : (mat.cert == "") = false := by simpa using hm
              simp only [hm2, Bool.false_eq_true, if_false]
              rw [setCertificateData_version, certTruthy_successUpdate, hs2 s1]
              simp [bne, hm2]

end Certs

namespace Certs

theorem acquireCert_version_mono (env : Env) (d : String) (s0 : Store) :
    storedVersion s0 ≤ storedVersion (acquireCert env d s0).store := by
  unfold acquireCert
  by_cases hsl : s0.safeLockTtl.isSome
  · simp [hsl]
  · simp only [hsl, Bool.false_eq_true, if_false]
    cases hv : validateDomain env.syntaxValid env.caaSupported env.caaDomains env.dns
        (normalizeDomainStr d) with
    | error e => simp
    | ok b =>
      have h1 : storedVersion s0 ≤
          storedVersion (env.duringWait.foldl (fun st u => setCertificateData u st) s0) :=
        foldl_version_mono _ _
      by_cases hls : env.lockSuccess
      · simp only [hls, if_true]
        have h2 := acquireUnderLock_version env (normalizeDomainStr d)
          (loadCertificateData s0)
          (env.duringWait.foldl (fun st u => setCertificateData u st) s0)
        rw [h2]
        split <;> omega
      · simp only [hls, Bool.false_eq_true, if_false]
        exact h1

end Certs

/-- C2 (amended): the stored `certVersion` never decreases — not under a
single `setCertificateData`, not under any sequence of them, and not
under `acquireCert` — and `setCertificateData` performs exactly one
hash-increment when and only when the update carries a TRUTHY `cert`
value (`!!updates.cert`: a non-empty string; `null`, `""` or an absent
property do not count); inside the lock, `acquireCert` increments exactly
once when and only when it stored a new cert.  The un-amended "when and
only when the update contains a cert field" is refuted by
`certs_C2_counterexample`. -/
theorem certs_C2_certVersion_monotonic :
    (∀ (u : Certs.Updates) (s : Certs.Store),
      Certs.storedVersion (Certs.setCertificateData u s) =
        Certs.storedVersion s + (if Certs.certTruthy u then 1 else 0)) ∧
    (∀ (us : List Certs.Updates) (s : Certs.Store),
      Certs.storedVersion s ≤
        Certs.storedVersion (us.foldl (fun st u => Certs.setCertificateData u st) s)) ∧
    (∀ (env : Certs.Env) (domain : String) (existing : Option Certs.CertView)
        (s1 : Certs.Store),
      Certs.storedVersion (Certs.acquireUnderLock env domain existing s1).store =
        Certs.storedVersion s1 +
          (if (Certs.acquireUnderLock env domain existing s1).storedNewCert then 1 else 0)) ∧
    (∀ (env : Certs.Env) (d : String) (s0 : Certs.Store),
      Certs.storedVersion s0 ≤ Certs.storedVersion (Certs.acquireCert env d s0).store) :=
  ⟨Certs.setCertificateData_version, Certs.foldl_version_mono,
    Certs.acquireUnderLock_version, Certs.acquireCert_version_mono⟩

/-- Counterexample for C2 as stated: an update that CONTAINS a `cert`
field holding `null` performs NO hash-increment — `!!updates.cert` tests
truthiness, not presence — so "exactly one hash-increment when and only
when the update contains a cert field" is false: here the field is
present and `certVersion` stays 5. -/
theorem certs_C2_counterexample :
    (({ cert := some none } : Certs.Updates)).cert.isSome = true ∧
    Certs.storedVersion (Certs.setCertificateData { cert := some none }
      { certVersion := some 5 }) = 5 :=
  ⟨rfl, rfl⟩

/-- C4 (amended): every error RAISED inside the issuance block (steps
5–11, after `lock:op:<D>` has been acquired) — an account fetch failure
or an ACME order failure — sets the fail-safe key `lock:safe:<D>` to 1
with TTL `BLOCK_RENEW_AFTER_ERROR_TTL` before `acquireCert` returns.  A
domain-validation failure in step 3 (`invalid_domain` / `caa_mismatch`)
does NOT set it: `acquireCert` merely logs and returns the existing
record (refutation of the original claim:
`certs_C4_counterexample`). -/
theorem certs_C4_failsafe_on_issuance_error (env : Certs.Env) (d : String) (s : Certs.Store)
    (hsl : s.safeLockTtl = none)
    (hval : Certs.validateDomain env.syntaxValid env.caaSupported env.caaDomains env.dns
      (normalizeDomainStr d) = Except.ok true)
    (hlock : env.lockSuccess = true)
    (hfresh : Certs.freshEnough (Certs.loadCertificateData s) env.now = false)
    (herr : (∃ e, env.account = Except.error e) ∨
      ((∃ u, env.account = Except.ok (some u)) ∧ ∃ e, env.acmeCreate = Except.error e)) :
    (Certs.acquireCert env d s).store.safeLockTtl =
      some Certs.BLOCK_RENEW_AFTER_ERROR_TTL := by
  unfold Certs.acquireCert
  simp only [hsl, Option.isSome_none, Bool.false_eq_true, if_false, hval, hlock, if_true]
  unfold Certs.acquireUnderLock
  simp only [hfresh, Bool.false_eq_true, if_false]
  rcases herr with ⟨e, he⟩ | ⟨⟨u, hacc⟩, e, hcr⟩
  · simp only [he]
    exact Certs.acquireFailure_safeLock env _ _ e false
  · simp only [hacc, hcr]
    exact Certs.acquireFailure_safeLock env _ _ e true

/-- The store used by the C4 witness and counterexample: a stale valid
record for `example.com`. -/
def storeC4 : Certs.Store :=
  { data := some { domain := some "example.com"
                   status := some "valid"
                   cert := some "PEM1"
                   validTo := some 432000000 }
    privateKey := some "KEY1"
    certVersion := some 1 }

/-- Environment for the C4 witness: issuance reaches the ACME order and
the order throws. -/
def envC4 : Certs.Env :=
  { caaSupported := false
    now := 0
    acmeCreate := Except.error { message := "order failed", code := some "urn:acme:error" } }

/-- Witness for C4: at this concrete input the ACME order throws and the
fail-safe key is set with TTL `BLOCK_RENEW_AFTER_ERROR_TTL`. -/
theorem certs_C4_witness :
    (Certs.acquireCert envC4 "example.com" storeC4).store.safeLockTtl =
      some Certs.BLOCK_RENEW_AFTER_ERROR_TTL :=
  certs_C4_failsafe_on_issuance_error envC4 "example.com" storeC4 rfl rfl rfl (by decide)
    (Or.inr ⟨⟨(), rfl⟩, { message := "order failed", code := some "urn:acme:error" }, rfl⟩)

/-- Environment for the C4 counterexample: the domain fails validation in
step 3. -/
def envC4bad : Certs.Env :=
  { syntaxValid := false
    caaSupported := false
    now := 0 }

/-- Counterexample for C4 as stated: a domain-validation failure in step
3 returns the existing record WITHOUT setting `lock:safe:<D>` — the
`catch` around `validateDomain` returns early and never reaches the
fail-safe write. -/
theorem certs_C4_counterexample :
    (Certs.acquireCert envC4bad "example.com" storeC4).store.safeLockTtl = none ∧
    (Certs.acquireCert envC4bad "example.com" storeC4).result =
      Certs.AcquireResult.returned (Certs.loadCertificateData storeC4) := by
  exact ⟨rfl, rfl⟩

/-- C5 (amended): a record with `status: "valid"` and `validTo` EXACTLY
equal to the current time is still treated as VALID by `getCertificate` —
the test is `validTo >= new Date()` — and the record is returned without
delegating; only `validTo < now` delegates to `acquireCert`.  The
original claim ("exactly equal is treated as expired and delegated") is
refuted by `certs_C5_counterexample`. -/
theorem certs_C5_validTo_boundary (env : Certs.Env) (d : String) (s : Certs.Store)
    (cd : Certs.CertView) (t : Int)
    (hload : Certs.loadCertificateData s = some cd)
    (hstatus : cd.data.status = some "valid")
    (hvalidTo : cd.data.validTo = some t) :
    (env.now ≤ t → Certs.getCertificate env d s = Certs.GetResult.cached cd) ∧
    (t < env.now →
      Certs.getCertificate env d s =
        Certs.GetResult.acquired (Certs.acquireCert env d s)) := by
  constructor
  · intro h
    have hf : Certs.freshValid cd env.now = true := by
      simp only [Certs.freshValid, hstatus, hvalidTo, beq_self_eq_true, Bool.true_and]
      simp
      omega
    simp [Certs.getCertificate, hload, hf]
  · intro h
    have hf : Certs.freshValid cd env.now = false := by
      simp only [Certs.freshValid, hstatus, hvalidTo, beq_self_eq_true, Bool.true_and]
      simp
      omega
    simp [Certs.getCertificate, hload, hf]

/-- Store, view and environment for the C5 counterexample: a valid record
whose `validTo` equals the current time exactly. -/
def storeC5 : Certs.Store :=
  { data := some { domain := some "example.com"
                   status := some "valid"
                   cert := some "PEM1"
                   validTo := some 5000 }
    certVersion := some 1 }

def viewC5 : Certs.CertView :=
  { data := { domain := some "example.com"
              status := some "valid"
              cert := some "PEM1"
              validTo := some 5000 }
    lastCheck := none
    privateKey := none
    lastError := none
    certVersion := some 1 }

def envC5 : Certs.Env := { now := 5000 }

/-- Counterexample for C5 as stated: with `validTo` exactly equal to
`now`, `getCertificate` returns the cached record (because the code
compares `validTo >= new Date()`) instead of delegating to
`acquireCert`. -/
theorem certs_C5_counterexample :
    Certs.getCertificate envC5 "example.com" storeC5 = Certs.GetResult.cached viewC5 := rfl

/-- Distinct concrete data for the C5 witness (boundary input
`validTo = now = 7000`). -/
def storeC5w : Certs.Store :=
  { data := some { domain := some "example.net"
                   status := some "valid"
                   cert := some "PEM9"
                   validTo := some 7000 }
    certVersion := some 2 }

def viewC5w : Certs.CertView :=
  { data := { domain := some "example.net"
              status := some "valid"
              cert := some "PEM9"
              validTo := some 7000 }
    lastCheck := none
    privateKey := none
    lastError := none
    certVersion := some 2 }

def envC5w : Certs.Env := { now := 7000 }

/-- Witness for C5: the amended theorem applied at the boundary input. -/
theorem certs_C5_witness :
    Certs.getCertificate envC5w "example.net" storeC5w = Certs.GetResult.cached viewC5w :=
  (certs_C5_validTo_boundary envC5w "example.net" storeC5w viewC5w 7000 rfl rfl rfl).1
    (by decide)

/-- The concurrent write applied while the C1 scenario waits on
`lock:op:<D>`: another holder has just renewed and stored a fresh
certificate valid for 90 days. -/
def updFreshC1 : Certs.Updates :=
  { cert := some (some "PEM2")
    ca := some []
    lastCheck := some (some 0)
    lastError := some none
    status := some "valid"
    validTo := some 7776000000
    validFrom := some 0
    altNames := some ["example.com"]
    serialNumber := some "02"
    fingerprint := some "F2" }

/-- The initial store of the C1 scenario: a stale record five days from
expiry. -/
def storeC1 : Certs.Store :=
  { data := some { domain := some "example.com"
                   status := some "valid"
                   cert := some "PEM1"
                   ca := some []
                   validFrom := some 0
                   validTo := some 432000000
                   altNames := some ["example.com"] }
    privateKey := some "KEY1"
    certVersion := some 1 }

/-- The C1 environment: validation passes, the lock is acquired after the
concurrent renewal, and the ACME order would succeed. -/
def envC1 : Certs.Env :=
  { caaSupported := false
    now := 0
    duringWait := [updFreshC1]
    acmeCreate := Except.ok (some { cert := "PEM3"
                                    serialNumber := "03"
                                    fingerprint := "F3"
                                    altNames := ["example.com"]
                                    validFrom := 0
                                    validTo := 9999999999 }) }

/-- C1 (code bug): after `lock:op:<D>` is acquired the record is NOT
reloaded — the renewal check re-reads the pre-lock snapshot (the source
comment "reload from db, maybe already renewed" notwithstanding).  In the
S3 race: at lock time the store already holds a certificate valid far
beyond `now + RENEW_AFTER_REMAINING` (first two conjuncts), yet the
process that lost the race still calls `acme.certificates.create`, stores
ANOTHER new cert, and does not return the concurrently written record —
where the claim (and spec steps 5/S3) say it reloads, releases the lock
and returns that record without issuing. -/
theorem certs_C1_issues_despite_fresh_store :
    ((Certs.setCertificateData updFreshC1 storeC1).data.map Certs.DataRec.validTo) =
        some (some 7776000000) ∧
    envC1.now + Certs.RENEW_AFTER_REMAINING < 7776000000 ∧
    (Certs.acquireCert envC1 "example.com" storeC1).acmeCalled = true ∧
    (Certs.acquireCert envC1 "example.com" storeC1).storedNewCert = true ∧
    (Certs.acquireCert envC1 "example.com" storeC1).result ≠
      Certs.AcquireResult.returned (Certs.loadCertificateData
        (Certs.setCertificateData updFreshC1 storeC1)) := by
  refine ⟨rfl, by decide, rfl, rfl, by decide⟩
